import Mathlib

/-!
Verification of the hybrid search core of the Quilt repository.

This file shallowly embeds the ranking engine implemented in
`hybrid_vector_search.py` (class `HybridVectorSearch`, SQLite backend) and
`postgres_hybrid_search.py` (class `PostgresHybridVectorSearch`), and proves
or refutes the frozen specification claims about it.

Modelling conventions:
* Python floats are modelled as exact rationals (`ℚ`).  `math.log` and
  `numpy.linalg.norm` are transcendental, so they are taken as parameters
  (`lg : ℚ → ℚ` resp. `nrm : List ℚ → ℚ`) of every definition that uses
  them; claims that depend on their analytic properties state those
  properties as hypotheses on the values actually used (e.g. that `nrm v`
  is the non-negative square root of the sum of squares of `v`).
* Python strings are lists of characters; `str.lower` is modelled by
  `Char.toLower` (the source data is ASCII, where the two agree).
* Division by zero follows Lean's `x / 0 = 0` convention, which coincides
  with the observable behaviour of the source at the single place where a
  zero denominator is reachable (`max(0, 0/0-as-nan)` evaluates to `0` in
  the Python source, see `vectorScore` below).
* The SQLite / Postgres stores are modelled by an in-memory list of
  documents in insertion order, which is the order both backends iterate
  rows in.
-/

namespace Quilt

/-- A token is a word extracted from a text. -/
abbrev Token := List Char

/-! ### Tokenizer

`HybridVectorSearch._tokenize`:
```python
words = re.findall(r'\b[a-zA-Z]+\b', text.lower())
return [word for word in words if len(word) > 2]
```
The regex matches a maximal run of ASCII letters only when it is framed by
word boundaries, i.e. when the characters adjacent to the run (if any) are
not word characters (`\w` = letters, digits, underscore). -/

/-- A regex word character (`\w`), restricted to ASCII as in the source data. -/
def isWordChar (c : Char) : Bool := c.isAlpha || c.isDigit || c == '_'

/-- One left-to-right pass over the text collecting the matches of
`\b[a-zA-Z]+\b`: `prevWord` records whether the previous character was a
word character, `cur` is the current letter run (reversed), and `valid`
records whether the run started at a word boundary. -/
def runsAux : List Char → Bool → List Char → Bool → List (List Char)
  | [], _, cur, valid =>
      if valid && !cur.isEmpty then [cur.reverse] else []
  | c :: rest, prevWord, cur, valid =>
      if c.isAlpha then
        if cur.isEmpty then
          runsAux rest true [c] (!prevWord)
        else
          runsAux rest true (c :: cur) valid
      else
        (if valid && !cur.isEmpty && !isWordChar c then [cur.reverse] else [])
          ++ runsAux rest (isWordChar c) [] false

/-- All matches of `\b[a-zA-Z]+\b` in a text, in order. -/
def wordRuns (s : List Char) : List (List Char) := runsAux s false [] false

/-- `HybridVectorSearch._tokenize` (identical in both backends). -/
def tokenize (s : List Char) : List Token :=
  (wordRuns (s.map Char.toLower)).filter (fun w => 2 < w.length)

/-- String-level wrapper used for concrete test inputs. -/
def tokenizeStr (s : String) : List String :=
  (tokenize s.data).map (fun t => String.mk t)

/-! ### Documents and the frequency index

`HybridVectorSearch.__init__` keeps `self.documents` (list of
`(doc_id, content)` in insertion order), `self.word_frequencies`
(`doc_id → {term → count}`) and `self.document_frequencies`
(`term → number of documents containing it`). -/

/-- A row of the `documents` table: id, content, optional embedding
(`None` when the embedding provider failed at insert time) and optional
metadata (kept opaque). -/
structure StoredDoc where
  id : Nat
  content : List Char
  embedding : Option (List ℚ)
  metadata : Option (List Char)
deriving DecidableEq

/-- The engine state: document store plus the in-memory frequency index.
`wordFrequencies` maps a doc id to its term counter (`[]` when absent,
mirroring `defaultdict`); `wfKeys` is the key list of the
`word_frequencies` dict (needed because the Postgres variant uses
`len(self.word_frequencies)` as its document count); `nextId` is the next
SQLite rowid. -/
structure Corpus where
  docs : List StoredDoc
  wordFrequencies : Nat → List (Token × Nat)
  documentFrequencies : Token → Nat
  wfKeys : List Nat
  nextId : Nat

def emptyCorpus : Corpus :=
  { docs := []
    wordFrequencies := fun _ => []
    documentFrequencies := fun _ => 0
    wfKeys := []
    nextId := 1 }

/-- `collections.Counter(words)`: each distinct word of `ws` paired with
its number of occurrences. -/
def wordCounts (ws : List Token) : List (Token × Nat) :=
  ws.dedup.map (fun w => (w, ws.count w))

/-- `HybridVectorSearch._update_frequencies`: store the counter of the new
document under its id and bump `document_frequencies` once per distinct
term with positive count.  The Python loop writes the counter key by key
into `word_frequencies[doc_id]`; since the id of an inserted document is
fresh (proved by `CorpusInv.ids_nodup` below), the slot is empty and this
equals replacing it wholesale, which is how it is modelled.  When the
content has no tokens the loop body never runs, so the `word_frequencies`
dict gains no key; `wfKeys` reproduces that.  The `defaultdict` read in
`_calculate_tfidf_score` also inserts an (empty) entry for a doc id that
has no counter yet; the inserted counter is empty, so no term lookup ever
changes, but `len(self.word_frequencies)` — the `total_docs` of the
Postgres variant — does grow; `pgCalculateTfidfScoreState` below models
that key insertion explicitly. -/
def updateFrequencies (c : Corpus) (content : List Char) (docId : Nat) : Corpus :=
  let counts := wordCounts (tokenize content)
  { c with
    wordFrequencies := Function.update c.wordFrequencies docId counts
    documentFrequencies :=
      counts.foldl
        (fun df p => if 0 < p.2 then Function.update df p.1 (df p.1 + 1) else df)
        c.documentFrequencies
    wfKeys := if counts.isEmpty then c.wfKeys
              else if docId ∈ c.wfKeys then c.wfKeys else c.wfKeys ++ [docId] }

/-- `HybridVectorSearch.add_document`: insert the row (the embedding blob
is what the external provider returned, `none` on failure) and update the
frequency index.  SQLite assigns the next rowid. -/
def addDocument (c : Corpus) (content : List Char) (embedding : Option (List ℚ))
    (metadata : Option (List Char)) : Corpus :=
  let doc : StoredDoc := ⟨c.nextId, content, embedding, metadata⟩
  let c' := { c with docs := c.docs ++ [doc], nextId := c.nextId + 1 }
  updateFrequencies c' content doc.id

/-- One `add_document` call: content, provider embedding, metadata. -/
abbrev AddReq := List Char × Option (List ℚ) × Option (List Char)

/-- The state reached from a fresh engine by a sequence of `add_document`
calls. -/
def buildCorpus (adds : List AddReq) : Corpus :=
  adds.foldl (fun c a => addDocument c a.1 a.2.1 a.2.2) emptyCorpus

/-! ### Lexical scoring -/

/-- `word in dict` / `dict[word]` on a term counter. -/
def lookupCount (l : List (Token × Nat)) (t : Token) : Nat :=
  match l.find? (fun p => p.1 = t) with
  | some p => p.2
  | none => 0

/-- `word in self.word_frequencies[doc_id]`. -/
def hasKey (l : List (Token × Nat)) (t : Token) : Bool :=
  (l.find? (fun p => p.1 = t)).isSome

/-- `sum(self.word_frequencies[doc_id].values())`. -/
def sumCounts (l : List (Token × Nat)) : Nat :=
  l.foldl (fun a p => a + p.2) 0

/-- `HybridVectorSearch._calculate_tfidf_score` with `math.log` as the
parameter `lg`.  `total_docs` is `len(self.documents)`. -/
def calculateTfidfScore (lg : ℚ → ℚ) (c : Corpus) (queryWords : List Token)
    (docId : Nat) : ℚ :=
  if queryWords.isEmpty then 0
  else
    let counter := c.wordFrequencies docId
    let docWordCount : Nat := sumCounts counter
    let totalDocs : Nat := c.docs.length
    queryWords.foldl
      (fun score w =>
        match counter.find? (fun p => p.1 = w) with
        | some p =>
            score + ((p.2 : ℚ) / (docWordCount : ℚ)) *
              (if 0 < c.documentFrequencies w
               then lg ((totalDocs : ℚ) / (c.documentFrequencies w : ℚ))
               else 0)
        | none => score)
      0

/-- The key set of the `word_frequencies` dict after the `defaultdict`
read `self.word_frequencies[doc_id]` registered `doc_id`. -/
def pgRegisterKey (keys : List Nat) (docId : Nat) : List Nat :=
  if docId ∈ keys then keys else keys ++ [docId]

/-- One call of `PostgresHybridVectorSearch._calculate_tfidf_score`,
threading the key list of the `word_frequencies` dict: identical to the
SQLite scorer except that `total_docs = len(self.word_frequencies)` — the
number of dict keys — which is read AFTER the `doc_word_count` line's
`defaultdict` access registered `doc_id` itself, so a document whose
content produced no tokens (and hence was never registered by
`_update_frequencies`) is counted from this call on.  The call returns the
updated key list: inside one search, documents scored later therefore see
a `total_docs` grown by every previously scored unregistered document.
When the query has no tokens the function returns before the access and
the key list is unchanged. -/
def pgCalculateTfidfScoreState (lg : ℚ → ℚ) (c : Corpus) (keys : List Nat)
    (queryWords : List Token) (docId : Nat) : ℚ × List Nat :=
  if queryWords.isEmpty then (0, keys)
  else
    let keys2 := pgRegisterKey keys docId
    let counter := c.wordFrequencies docId
    let docWordCount : Nat := sumCounts counter
    let totalDocs : Nat := keys2.length
    (queryWords.foldl
      (fun score w =>
        match counter.find? (fun p => p.1 = w) with
        | some p =>
            score + ((p.2 : ℚ) / (docWordCount : ℚ)) *
              (if 0 < c.documentFrequencies w
               then lg ((totalDocs : ℚ) / (c.documentFrequencies w : ℚ))
               else 0)
        | none => score)
      0, keys2)

/-- The Postgres TF-IDF score of a single call made at the engine state
`c` (key list = the registered documents), e.g. the first `doc_id` scored
by a search; later calls of the same search pass the grown key list to
`pgCalculateTfidfScoreState` directly. -/
def pgCalculateTfidfScore (lg : ℚ → ℚ) (c : Corpus) (queryWords : List Token)
    (docId : Nat) : ℚ :=
  (pgCalculateTfidfScoreState lg c c.wfKeys queryWords docId).1

/-- `w == s[:len(w)]`. -/
def startsWith : List Char → List Char → Bool
  | [], _ => true
  | _ :: _, [] => false
  | a :: w, b :: s => a == b && startsWith w s

/-- Python's substring containment `w in s`. -/
def containsSub (w : List Char) : List Char → Bool
  | [] => w.isEmpty
  | b :: s => startsWith w (b :: s) || containsSub w s

/-- `HybridVectorSearch._calculate_keyword_score` (identical in both
backends): the fraction of the query token list — duplicates included —
occurring as substrings of the lower-cased content. -/
def calculateKeywordScore (queryWords : List Token) (content : List Char) : ℚ :=
  if queryWords.isEmpty then 0
  else ((queryWords.countP (fun w => containsSub w (content.map Char.toLower))) : ℚ) /
    ((queryWords.length : ℚ))

/-! ### Vector scoring -/

/-- `np.dot` on 1-d arrays (modelled on the common prefix; the source only
calls it on equal-length vectors, a mismatch raises inside the `try`). -/
def dot (a b : List ℚ) : ℚ := (List.zipWith (· * ·) a b).sum

/-- Sum of squares, `‖v‖²`. -/
def sumSq (v : List ℚ) : ℚ := (v.map (fun x => x * x)).sum

/-- The vector score of the hybrid path:
`max(0, np.dot(q, d) / (np.linalg.norm(q) * np.linalg.norm(d)))` with the
norm function abstracted as `nrm`. -/
def vectorScore (nrm : List ℚ → ℚ) (q d : List ℚ) : ℚ :=
  max 0 (dot q d / (nrm q * nrm d))

/-- The per-document vector score of `_hybrid_embedding_search`:
`vector_score = 0.0` unless the row has a (truthy, i.e. non-empty)
embedding blob. -/
def docVectorScore (nrm : List ℚ → ℚ) (qEmb : List ℚ) (d : StoredDoc) : ℚ :=
  match d.embedding with
  | none => 0
  | some e => if e.isEmpty then 0 else vectorScore nrm qEmb e

/-! ### Result lists, sorting, slicing -/

/-- One entry of the result list returned by the SQLite engine:
`{"content": ..., "score": ..., "metadata": ..., "search_type": ...}`. -/
structure Result where
  content : List Char
  score : ℚ
  metadata : Option (List Char)
  searchType : String
deriving DecidableEq

/-- `a` sorts no later than `b` under
`results.sort(key=lambda x: x['score'], reverse=True)`. -/
def scoreGe (a b : Result) : Prop := b.score ≤ a.score

instance : DecidableRel scoreGe :=
  fun a b => inferInstanceAs (Decidable (b.score ≤ a.score))

instance : IsTotal Result scoreGe := ⟨fun a b => le_total b.score a.score⟩

instance : IsTrans Result scoreGe := ⟨fun _ _ _ h1 h2 => le_trans h2 h1⟩

/-- Python's `list.sort` is stable; a stable descending sort by score is
extensionally an insertion sort that inserts each element before the
later-listed elements of equal score. -/
def sortDesc (l : List Result) : List Result := l.insertionSort scoreGe

/-- The strict-total-order formulation of "descending score, ties broken
by insertion order": position-tagged results ordered lexicographically. -/
def lexLe (a b : Nat × Result) : Prop :=
  b.2.score < a.2.score ∨ (a.2.score = b.2.score ∧ a.1 ≤ b.1)

instance : DecidableRel lexLe :=
  fun a b =>
    inferInstanceAs (Decidable (b.2.score < a.2.score ∨ (a.2.score = b.2.score ∧ a.1 ≤ b.1)))

instance : IsTotal (Nat × Result) lexLe := by
  constructor
  intro a b
  rcases lt_trichotomy a.2.score b.2.score with h | h | h
  · exact Or.inr (Or.inl h)
  · rcases Nat.le_total a.1 b.1 with hn | hn
    · exact Or.inl (Or.inr ⟨h, hn⟩)
    · exact Or.inr (Or.inr ⟨h.symm, hn⟩)
  · exact Or.inl (Or.inl h)

instance : IsTrans (Nat × Result) lexLe := by
  constructor
  intro a b c hab hbc
  rcases hab with h1 | ⟨h1, h1i⟩
  · rcases hbc with h2 | ⟨h2, _⟩
    · exact Or.inl (h2.trans h1)
    · exact Or.inl (h2 ▸ h1)
  · rcases hbc with h2 | ⟨h2, h2i⟩
    · exact Or.inl (lt_of_lt_of_eq h2 h1.symm)
    · exact Or.inr ⟨h1.trans h2, h1i.trans h2i⟩

/-- The canonical "score descending, insertion order on ties" reordering
of a result list. -/
def stableDescSort (l : List Result) : List Result :=
  (l.enum.insertionSort lexLe).map Prod.snd

/-- Python's `results[:k]` for an arbitrary (possibly negative) `k`. -/
def pySlice (k : Int) (l : List Result) : List Result :=
  if 0 ≤ k then l.take k.toNat else l.take (l.length - (-k).toNat)

/-! ### The SQLite search paths -/

/-- The combined score of `_tfidf_keyword_search`:
`(0.7 * tfidf_score) + (0.3 * keyword_score)`. -/
def lexCombined (lg : ℚ → ℚ) (c : Corpus) (queryWords : List Token)
    (d : StoredDoc) : ℚ :=
  (7/10) * calculateTfidfScore lg c queryWords d.id +
    (3/10) * calculateKeywordScore queryWords d.content

/-- The rows appended by the `_tfidf_keyword_search` loop, in document
order (`self._get_metadata(doc_id)` returns the stored metadata). -/
def lexScores (lg : ℚ → ℚ) (c : Corpus) (queryWords : List Token) : List Result :=
  (c.docs.filter (fun d => decide (0 < lexCombined lg c queryWords d))).map
    (fun d => ⟨d.content, lexCombined lg c queryWords d, d.metadata, "hybrid_tfidf"⟩)

/-- `HybridVectorSearch._tfidf_keyword_search`. -/
def tfidfKeywordSearch (lg : ℚ → ℚ) (c : Corpus) (query : List Char) (k : Int) :
    List Result :=
  let queryWords := tokenize query
  if queryWords.isEmpty then []
  else pySlice k (sortDesc (lexScores lg c queryWords))

/-- The combined score of `_hybrid_embedding_search`:
`(0.6 * vector_score) + (0.25 * tfidf_score) + (0.15 * keyword_score)`,
with the vector term inlined as in the source. -/
def hybridCombined (lg : ℚ → ℚ) (nrm : List ℚ → ℚ) (c : Corpus) (qEmb : List ℚ)
    (queryWords : List Token) (d : StoredDoc) : ℚ :=
  (6/10) * (match d.embedding with
    | none => 0
    | some e => if e.isEmpty then 0 else max 0 (dot qEmb e / (nrm qEmb * nrm e))) +
  (25/100) * calculateTfidfScore lg c queryWords d.id +
  (15/100) * calculateKeywordScore queryWords d.content

/-- The rows appended by the `_hybrid_embedding_search` loop
(`SELECT id, content, embedding, metadata FROM documents`, row order =
insertion order), filtered by `combined_score > 0.1`. -/
def hybridScores (lg : ℚ → ℚ) (nrm : List ℚ → ℚ) (c : Corpus) (qEmb : List ℚ)
    (queryWords : List Token) : List Result :=
  (c.docs.filter (fun d => decide (1/10 < hybridCombined lg nrm c qEmb queryWords d))).map
    (fun d => ⟨d.content, hybridCombined lg nrm c qEmb queryWords d, d.metadata,
               "hybrid_tensorflow"⟩)

/-- The body of `_hybrid_embedding_search` after a query embedding was
obtained. -/
def hybridEmbeddingSearch (lg : ℚ → ℚ) (nrm : List ℚ → ℚ) (c : Corpus)
    (qEmb : List ℚ) (query : List Char) (k : Int) : List Result :=
  pySlice k (sortDesc (hybridScores lg nrm c qEmb (tokenize query)))

/-- `HybridVectorSearch.search_similar`.  The external effects are passed
as data: `modelLoaded` is the truthiness of `self.embedding_model.model`,
`qEmb` the value of `self.embedding_model.encode(query)` (`none` = failed)
and `embedExc` whether anything inside the `try` of
`_hybrid_embedding_search` raised (the `except` falls back to
`_tfidf_keyword_search`). -/
def searchSimilar (lg : ℚ → ℚ) (nrm : List ℚ → ℚ) (modelLoaded : Bool)
    (qEmb : Option (List ℚ)) (embedExc : Bool) (c : Corpus) (query : List Char)
    (k : Int) : List Result :=
  if c.docs.isEmpty then []
  else if modelLoaded then
    if embedExc then tfidfKeywordSearch lg c query k
    else
      match qEmb with
      | none => tfidfKeywordSearch lg c query k
      | some e => hybridEmbeddingSearch lg nrm c e query k
  else tfidfKeywordSearch lg c query k

/-! ### The Postgres hybrid path -/

/-- The combined score of `PostgresHybridVectorSearch._hybrid_embedding_search`:
`(0.7 * vector_score) + (0.2 * tfidf_score) + (0.1 * keyword_score)`.
The TF-IDF term is the single call made from the engine state `c`
(`pgCalculateTfidfScore`); the key-list growth across the documents of one
search is carried by `pgCalculateTfidfScoreState`. -/
def pgHybridCombined (lg : ℚ → ℚ) (nrm : List ℚ → ℚ) (c : Corpus) (qEmb : List ℚ)
    (queryWords : List Token) (d : StoredDoc) : ℚ :=
  (7/10) * (match d.embedding with
    | none => 0
    | some e => if e.isEmpty then 0 else max 0 (dot qEmb e / (nrm qEmb * nrm e))) +
  (2/10) * pgCalculateTfidfScore lg c queryWords d.id +
  (1/10) * calculateKeywordScore queryWords d.content

/-- The documents the Postgres hybrid path scores at all:
`db.query(Document).filter(Document.embedding.isnot(None))`. -/
def pgScoredDocs (c : Corpus) : List StoredDoc :=
  c.docs.filter (fun d => d.embedding.isSome)

/-- The ids of the documents that receive scores in the Postgres hybrid
path. -/
def pgScoredIds (c : Corpus) : List Nat := (pgScoredDocs c).map StoredDoc.id

/-! ### Spec-side definitions

These follow the wording of the specification / claims, to be compared
with the code-derived definitions above. -/

/-- The claimed TF-IDF contribution of one query token `t` (claim C4):
`(term_frequency[doc][t] / total_terms[doc]) * ln(N / document_frequency[t])`
when `t` occurs in the document and has positive document frequency, and
`0` otherwise. -/
def specTfidfContribution (lg : ℚ → ℚ) (c : Corpus) (totalDocs : Nat) (docId : Nat)
    (t : Token) : ℚ :=
  let counter := c.wordFrequencies docId
  if hasKey counter t ∧ 0 < c.documentFrequencies t then
    ((lookupCount counter t : ℚ) / (sumCounts counter : ℚ)) *
      lg ((totalDocs : ℚ) / (c.documentFrequencies t : ℚ))
  else 0

/-- The claimed TF-IDF score: the sum of the contributions over the query
token list. -/
def specTfidfScore (lg : ℚ → ℚ) (c : Corpus) (totalDocs : Nat) (docId : Nat)
    (queryWords : List Token) : ℚ :=
  (queryWords.map (specTfidfContribution lg c totalDocs docId)).sum

/-- The keyword score as claim C5 words it: distinct query tokens present
in the lower-cased document text, divided by the number of distinct query
tokens. -/
def specKeywordScore (queryWords : List Token) (content : List Char) : ℚ :=
  if queryWords.dedup.isEmpty then 0
  else ((queryWords.dedup.countP (fun w => containsSub w (content.map Char.toLower))) : ℚ) /
    ((queryWords.dedup.length : ℚ))

/-- The invariants of every engine state reachable by `add_document` calls
from a fresh engine. -/
structure CorpusInv (c : Corpus) : Prop where
  df_eq : ∀ t, c.documentFrequencies t =
    c.docs.countP (fun d => decide (t ∈ tokenize d.content))
  wf_mem : ∀ d ∈ c.docs, c.wordFrequencies d.id = wordCounts (tokenize d.content)
  wf_out : ∀ i, i ∉ c.docs.map StoredDoc.id → c.wordFrequencies i = []
  keys_eq : c.wfKeys = (c.docs.filter (fun d => !(tokenize d.content).isEmpty)).map StoredDoc.id
  ids_lt : ∀ d ∈ c.docs, d.id < c.nextId
  ids_nodup : (c.docs.map StoredDoc.id).Nodup

/-- A degenerate stand-in for `math.log` used to instantiate concrete
counterexamples and witnesses (their inputs are arranged so that every
reachable `log` argument is `1`, where the real `ln` is also `0`). -/
def lgZero : ℚ → ℚ := fun _ => 0

/-- A degenerate stand-in for `np.linalg.norm` for inputs whose vector
scores are irrelevant or zero. -/
def nrmZero : List ℚ → ℚ := fun _ => 0

/-- A stand-in for `np.linalg.norm` that is exact on the two vectors used
by the concrete witness of the cosine-bounds claim. -/
def nrmW : List ℚ → ℚ :=
  fun v => if v = [3, 4] then 5 else if v = [4, 3] then 5 else 0

/-- A stand-in for `math.log` that, like the real `ln`, is zero at 1 but
not at 2 (`lgOne 1 = 0`, `lgOne 2 = 1`); used to separate the two
`total_docs` conventions at a concrete input. -/
def lgOne : ℚ → ℚ := fun x => x - 1

/-- A stand-in for `np.linalg.norm` that is exact on the unit vector
`[1]`. -/
def nrmOne : List ℚ → ℚ := fun v => if v = [1] then 1 else 0

/-! ### Lemmas about counters and the frequency index -/

theorem find?_map_mk (f : Token → Nat) (t : Token) :
    ∀ l : List Token,
      (l.map (fun w => (w, f w))).find? (fun p => decide (p.1 = t)) =
        if t ∈ l then some (t, f t) else none
  | [] => by simp
  | w :: l => by
    by_cases hw : w = t
    · subst hw
      simp [List.find?_cons_of_pos]
    · rw [List.map_cons, List.find?_cons_of_neg _ (by simpa using hw), find?_map_mk f t l]
      simp [hw, eq_comm, Ne.symm hw]

theorem lookupCount_wordCounts (ws : List Token) (t : Token) :
    lookupCount (wordCounts ws) t = ws.count t := by
  unfold lookupCount wordCounts
  rw [find?_map_mk]
  by_cases h : t ∈ ws
  · simp [List.mem_dedup.mpr h]
  · have hd : t ∉ ws.dedup := fun hd => h (List.mem_dedup.mp hd)
    simp [hd, List.count_eq_zero.mpr h]

theorem hasKey_wordCounts (ws : List Token) (t : Token) :
    hasKey (wordCounts ws) t = decide (t ∈ ws) := by
  unfold hasKey wordCounts
  rw [find?_map_mk]
  by_cases h : t ∈ ws
  · simp [List.mem_dedup.mpr h, h]
  · have hd : t ∉ ws.dedup := fun hd => h (List.mem_dedup.mp hd)
    simp [hd, h]

theorem keys_wordCounts (ws : List Token) :
    (wordCounts ws).map Prod.fst = ws.dedup := by
  unfold wordCounts
  rw [List.map_map]
  exact List.map_id'' (fun w => rfl) ws.dedup

theorem sumCounts_eq_sum_map :
    ∀ l : List (Token × Nat), sumCounts l = (l.map Prod.snd).sum := by
  have aux : ∀ (l : List (Token × Nat)) (a : Nat),
      l.foldl (fun s p => s + p.2) a = a + (l.map Prod.snd).sum := by
    intro l
    induction l with
    | nil => simp
    | cons p l ih => intro a; simp [ih, Nat.add_assoc]
  intro l
  simpa using aux l 0

theorem snd_le_sumCounts {l : List (Token × Nat)} {p : Token × Nat} (h : p ∈ l) :
    p.2 ≤ sumCounts l := by
  rw [sumCounts_eq_sum_map]
  induction l with
  | nil => cases h
  | cons q l ih =>
    rw [List.map_cons, List.sum_cons]
    rcases List.mem_cons.mp h with rfl | h
    · exact Nat.le_add_right _ _
    · exact (ih h).trans (Nat.le_add_left _ _)

theorem exists_wordCounts_iff (ws : List Token) (t : Token) :
    (∃ p ∈ wordCounts ws, p.1 = t ∧ 0 < p.2) ↔ t ∈ ws := by
  constructor
  · rintro ⟨p, hp, h1, _⟩
    rcases List.mem_map.mp hp with ⟨w, hw, rfl⟩
    exact List.mem_dedup.mp (h1 ▸ hw)
  · intro h
    exact ⟨(t, ws.count t),
      List.mem_map.mpr ⟨t, List.mem_dedup.mpr h, rfl⟩,
      rfl, List.count_pos_iff.mpr h⟩

theorem df_foldl (t : Token) :
    ∀ (counts : List (Token × Nat)) (df : Token → Nat),
      (counts.map Prod.fst).Nodup →
      (counts.foldl
          (fun f p => if 0 < p.2 then Function.update f p.1 (f p.1 + 1) else f) df) t =
        df t + (if ∃ p ∈ counts, p.1 = t ∧ 0 < p.2 then 1 else 0)
  | [], df, _ => by simp
  | p :: counts, df, hnd => by
    have hnd' : (counts.map Prod.fst).Nodup := (List.nodup_cons.mp (by simpa using hnd)).2
    have hout : p.1 ∉ counts.map Prod.fst := (List.nodup_cons.mp (by simpa using hnd)).1
    rw [List.foldl_cons]
    by_cases hpos : 0 < p.2
    · rw [if_pos hpos, df_foldl t counts _ hnd']
      by_cases hpt : p.1 = t
      · subst hpt
        have hnot : ¬ ∃ q ∈ counts, q.1 = p.1 ∧ 0 < q.2 := by
          rintro ⟨q, hq, hq1, _⟩
          exact hout (hq1 ▸ List.mem_map.mpr ⟨q, hq, rfl⟩)
        have hyes : ∃ q ∈ p :: counts, q.1 = p.1 ∧ 0 < q.2 :=
          ⟨p, List.mem_cons_self p counts, rfl, hpos⟩
        simp [Function.update_same, hnot, hyes, hpos]
      · have hiff : (∃ q ∈ counts, q.1 = t ∧ 0 < q.2) ↔
            (∃ q ∈ p :: counts, q.1 = t ∧ 0 < q.2) := by
          constructor
          · rintro ⟨q, hq, hqs⟩; exact ⟨q, List.mem_cons_of_mem _ hq, hqs⟩
          · rintro ⟨q, hq, hqs⟩
            rcases List.mem_cons.mp hq with rfl | hq
            · exact absurd hqs.1 hpt
            · exact ⟨q, hq, hqs⟩
        rw [Function.update_noteq (fun ht => hpt ht.symm), if_congr hiff rfl rfl]
    · rw [if_neg hpos, df_foldl t counts _ hnd']
      have hiff : (∃ q ∈ counts, q.1 = t ∧ 0 < q.2) ↔
          (∃ q ∈ p :: counts, q.1 = t ∧ 0 < q.2) := by
        constructor
        · rintro ⟨q, hq, hqs⟩; exact ⟨q, List.mem_cons_of_mem _ hq, hqs⟩
        · rintro ⟨q, hq, hqs⟩
          rcases List.mem_cons.mp hq with rfl | hq
          · exact absurd hqs.2 hpos
          · exact ⟨q, hq, hqs⟩
      rw [if_congr hiff rfl rfl]

theorem wordCounts_isEmpty (ws : List Token) :
    (wordCounts ws).isEmpty = ws.isEmpty := by
  rcases ws with _ | ⟨w, ws⟩
  · rfl
  · have : (w :: ws).dedup ≠ [] := by
      intro hnil
      have : w ∈ (w :: ws).dedup := List.mem_dedup.mpr (List.mem_cons_self w ws)
      rw [hnil] at this
      cases this
    rcases hd : (w :: ws).dedup with _ | ⟨v, l⟩
    · exact absurd hd this
    · simp [wordCounts, hd]

theorem addDocument_def (c : Corpus) (content : List Char) (emb : Option (List ℚ))
    (meta : Option (List Char)) :
    addDocument c content emb meta =
      { docs := c.docs ++ [⟨c.nextId, content, emb, meta⟩]
        wordFrequencies :=
          Function.update c.wordFrequencies c.nextId (wordCounts (tokenize content))
        documentFrequencies :=
          (wordCounts (tokenize content)).foldl
            (fun df p => if 0 < p.2 then Function.update df p.1 (df p.1 + 1) else df)
            c.documentFrequencies
        wfKeys :=
          if (wordCounts (tokenize content)).isEmpty then c.wfKeys
          else if c.nextId ∈ c.wfKeys then c.wfKeys else c.wfKeys ++ [c.nextId]
        nextId := c.nextId + 1 } := rfl

theorem corpusInv_emptyCorpus : CorpusInv emptyCorpus := by
  refine ⟨?_, ?_, ?_, ?_, ?_, ?_⟩ <;> simp [emptyCorpus]

theorem corpusInv_addDocument {c : Corpus} (h : CorpusInv c) (content : List Char)
    (emb : Option (List ℚ)) (meta : Option (List Char)) :
    CorpusInv (addDocument c content emb meta) := by
  rw [addDocument_def]
  have hfresh : c.nextId ∉ c.docs.map StoredDoc.id := by
    intro hmem
    rcases List.mem_map.mp hmem with ⟨d, hd, hid⟩
    exact absurd (hid ▸ h.ids_lt d hd) (lt_irrefl _)
  have hkeysnodup : ((wordCounts (tokenize content)).map Prod.fst).Nodup := by
    rw [keys_wordCounts]; exact List.nodup_dedup _
  refine ⟨?_, ?_, ?_, ?_, ?_, ?_⟩
  · intro t
    show (List.foldl _ c.documentFrequencies _) t = _
    rw [df_foldl t _ _ hkeysnodup, List.countP_append, h.df_eq t]
    simp only [List.countP_cons, List.countP_nil]
    rw [if_congr (exists_wordCounts_iff (tokenize content) t) rfl rfl]
    simp
  · intro d hd
    rcases List.mem_append.mp hd with hd | hd
    · have hne : d.id ≠ c.nextId :=
        fun he => hfresh (he ▸ List.mem_map.mpr ⟨d, hd, rfl⟩)
      show Function.update _ _ _ d.id = _
      rw [Function.update_noteq hne]
      exact h.wf_mem d hd
    · rcases List.mem_singleton.mp hd with rfl
      exact Function.update_same _ _ _
  · intro i hi
    rw [List.map_append] at hi
    have hi1 : i ∉ c.docs.map StoredDoc.id := fun hm => hi (List.mem_append_left _ hm)
    have hi2 : i ≠ c.nextId := by
      intro hrfl
      exact hi (List.mem_append_right _ (by simp [hrfl]))
    show Function.update c.wordFrequencies c.nextId (wordCounts (tokenize content)) i = []
    rw [Function.update_noteq hi2]
    exact h.wf_out i hi1
  · rw [List.filter_append, List.map_append, ← h.keys_eq]
    by_cases hc : (wordCounts (tokenize content)).isEmpty
    · have htok : (tokenize content).isEmpty = true := by
        rw [← wordCounts_isEmpty]; exact hc
      rw [if_pos hc]
      simp [htok]
    · have htok : (tokenize content).isEmpty = false := by
        rw [← wordCounts_isEmpty]; exact Bool.eq_false_iff.mpr hc
      have hnotin : c.nextId ∉ c.wfKeys := by
        rw [h.keys_eq]
        intro hm
        rcases List.mem_map.mp hm with ⟨d, hdf, hid⟩
        exact absurd (hid ▸ h.ids_lt d (List.mem_of_mem_filter hdf)) (lt_irrefl _)
      rw [if_neg hc, if_neg hnotin]
      simp [htok]
  · intro d hd
    rcases List.mem_append.mp hd with hd | hd
    · exact (h.ids_lt d hd).trans (Nat.lt_succ_self _)
    · rcases List.mem_singleton.mp hd with rfl
      exact Nat.lt_succ_self _
  · rw [List.map_append]
    refine List.Nodup.append h.ids_nodup (List.nodup_singleton _) ?_
    intro a ha hb
    rcases List.mem_singleton.mp (by simpa using hb) with rfl
    exact hfresh ha

theorem corpusInv_buildCorpus (adds : List AddReq) : CorpusInv (buildCorpus adds) := by
  have step : ∀ (l : List AddReq) (c : Corpus), CorpusInv c →
      CorpusInv (l.foldl (fun c a => addDocument c a.1 a.2.1 a.2.2) c) := by
    intro l
    induction l with
    | nil => intro c hc; exact hc
    | cons a l ih =>
      intro c hc
      exact ih _ (corpusInv_addDocument hc a.1 a.2.1 a.2.2)
  exact step adds _ corpusInv_emptyCorpus

/-! ### Lemmas about the TF-IDF score -/

theorem tfidf_foldl (lg : ℚ → ℚ) (counter : List (Token × Nat)) (df : Token → Nat)
    (N dwc : Nat) :
    ∀ (l : List Token) (a : ℚ),
      l.foldl (fun score w =>
        match counter.find? (fun p => decide (p.1 = w)) with
        | some p => score + ((p.2 : ℚ) / (dwc : ℚ)) *
            (if 0 < df w then lg ((N : ℚ) / (df w : ℚ)) else 0)
        | none => score) a =
      a + (l.map (fun w =>
        match counter.find? (fun p => decide (p.1 = w)) with
        | some p => ((p.2 : ℚ) / (dwc : ℚ)) *
            (if 0 < df w then lg ((N : ℚ) / (df w : ℚ)) else 0)
        | none => 0)).sum
  | [], a => by simp
  | w :: l, a => by
    rw [List.foldl_cons, List.map_cons, List.sum_cons,
      tfidf_foldl lg counter df N dwc l]
    cases hf : counter.find? (fun p => decide (p.1 = w)) with
    | none => simp [hf]
    | some p => simp [hf]; ring

theorem tfidfContribution_eq (lg : ℚ → ℚ) (c : Corpus) (N docId : Nat) (w : Token) :
    (match (c.wordFrequencies docId).find? (fun p => decide (p.1 = w)) with
     | some p => ((p.2 : ℚ) / ((sumCounts (c.wordFrequencies docId)) : ℚ)) *
         (if 0 < c.documentFrequencies w
          then lg ((N : ℚ) / (c.documentFrequencies w : ℚ)) else 0)
     | none => 0) = specTfidfContribution lg c N docId w := by
  unfold specTfidfContribution hasKey lookupCount
  cases hf : (c.wordFrequencies docId).find? (fun p => decide (p.1 = w)) with
  | none => simp [hf]
  | some p =>
    by_cases hdf : 0 < c.documentFrequencies w
    · simp [hf, hdf]
    · simp [hf, hdf]

theorem calculateTfidfScore_eq_spec (lg : ℚ → ℚ) (c : Corpus) (qw : List Token)
    (docId : Nat) :
    calculateTfidfScore lg c qw docId = specTfidfScore lg c c.docs.length docId qw := by
  unfold calculateTfidfScore specTfidfScore
  by_cases hq : qw.isEmpty
  · rw [List.isEmpty_iff.mp hq]
    simp
  · rw [if_neg (by simpa using hq)]
    rw [tfidf_foldl, zero_add]
    congr 1
    exact List.map_congr_left (fun w _ => tfidfContribution_eq lg c c.docs.length docId w)

theorem pgCalculateTfidfScoreState_eq (lg : ℚ → ℚ) (c : Corpus) (keys : List Nat)
    (qw : List Token) (docId : Nat) :
    pgCalculateTfidfScoreState lg c keys qw docId =
      (specTfidfScore lg c (pgRegisterKey keys docId).length docId qw,
       if qw.isEmpty then keys else pgRegisterKey keys docId) := by
  unfold pgCalculateTfidfScoreState specTfidfScore
  by_cases hq : qw.isEmpty
  · rw [if_pos hq, if_pos hq, List.isEmpty_iff.mp hq]
    simp
  · rw [if_neg hq, if_neg hq]
    rw [Prod.mk.injEq]
    refine ⟨?_, rfl⟩
    rw [tfidf_foldl, zero_add]
    congr 1
    exact List.map_congr_left
      (fun w _ => tfidfContribution_eq lg c (pgRegisterKey keys docId).length docId w)

theorem pgCalculateTfidfScore_eq_spec (lg : ℚ → ℚ) (c : Corpus) (qw : List Token)
    (docId : Nat) :
    pgCalculateTfidfScore lg c qw docId =
      specTfidfScore lg c (pgRegisterKey c.wfKeys docId).length docId qw := by
  unfold pgCalculateTfidfScore
  rw [pgCalculateTfidfScoreState_eq]

theorem mem_buildCorpus_docs (adds : List AddReq) (d : StoredDoc)
    (hd : d ∈ (buildCorpus adds).docs) : ∃ a ∈ adds, d.content = a.1 := by
  have step : ∀ (l : List AddReq) (c : Corpus) (d : StoredDoc),
      d ∈ (l.foldl (fun c a => addDocument c a.1 a.2.1 a.2.2) c).docs →
      d ∈ c.docs ∨ ∃ a ∈ l, d.content = a.1 := by
    intro l
    induction l with
    | nil =>
      intro c d hd
      exact Or.inl hd
    | cons a l ih =>
      intro c d hd
      rcases ih _ d hd with hd2 | ⟨b, hb, hc⟩
      · simp only [addDocument_def, List.mem_append, List.mem_singleton] at hd2
        rcases hd2 with h | rfl
        · exact Or.inl h
        · exact Or.inr ⟨a, List.mem_cons_self _ _, rfl⟩
      · exact Or.inr ⟨b, List.mem_cons_of_mem _ hb, hc⟩
  rcases step adds emptyCorpus d hd with h | h
  · cases h
  · exact h

theorem pg_keys_of_all_tokenized {adds : List AddReq}
    (hall : ∀ a ∈ adds, (tokenize a.1).isEmpty = false) :
    (buildCorpus adds).wfKeys = (buildCorpus adds).docs.map StoredDoc.id ∧
    ∀ d ∈ (buildCorpus adds).docs,
      pgRegisterKey (buildCorpus adds).wfKeys d.id = (buildCorpus adds).wfKeys := by
  have hinv := corpusInv_buildCorpus adds
  have hkeys : (buildCorpus adds).wfKeys = (buildCorpus adds).docs.map StoredDoc.id := by
    rw [hinv.keys_eq]
    congr 1
    apply List.filter_eq_self.mpr
    intro d hd
    rcases mem_buildCorpus_docs adds d hd with ⟨a, ha, hc⟩
    rw [hc, hall a ha]
    rfl
  refine ⟨hkeys, fun d hd => ?_⟩
  unfold pgRegisterKey
  rw [if_pos (hkeys ▸ List.mem_map.mpr ⟨d, hd, rfl⟩)]

theorem tfidf_guards {c : Corpus} (h : CorpusInv c) {docId : Nat} {w : Token}
    (hw : hasKey (c.wordFrequencies docId) w = true) :
    0 < sumCounts (c.wordFrequencies docId) ∧ 0 < c.documentFrequencies w := by
  by_cases hdoc : docId ∈ c.docs.map StoredDoc.id
  · rcases List.mem_map.mp hdoc with ⟨d, hd, rfl⟩
    rw [h.wf_mem d hd] at hw
    rw [hasKey_wordCounts] at hw
    have hwmem : w ∈ tokenize d.content := of_decide_eq_true hw
    constructor
    · have hpair : (w, (tokenize d.content).count w) ∈ wordCounts (tokenize d.content) :=
        List.mem_map.mpr ⟨w, List.mem_dedup.mpr hwmem, rfl⟩
      have h1 : 0 < (tokenize d.content).count w := List.count_pos_iff.mpr hwmem
      have h2 := snd_le_sumCounts hpair
      rw [h.wf_mem d hd]
      exact lt_of_lt_of_le h1 h2
    · rw [h.df_eq w]
      exact List.countP_pos_iff.mpr ⟨d, hd, by simpa using hwmem⟩
  · rw [h.wf_out docId hdoc] at hw
    cases hw

theorem countP_lookup_eq {c : Corpus} (h : CorpusInv c) (t : Token) :
    c.docs.countP (fun d => decide (0 < lookupCount (c.wordFrequencies d.id) t)) =
      c.docs.countP (fun d => decide (t ∈ tokenize d.content)) := by
  apply List.countP_congr
  intro d hd
  rw [h.wf_mem d hd, lookupCount_wordCounts]
  simp [List.count_pos_iff]

/-! ### Lemmas about sorting and slicing -/

theorem pySlice_eq_take (k : Int) (l : List Result) :
    pySlice k l = l.take (if 0 ≤ k then k.toNat else l.length - (-k).toNat) := by
  unfold pySlice
  split <;> rfl

theorem pySlice_sorted {l : List Result} (h : l.Sorted scoreGe) (k : Int) :
    (pySlice k l).Sorted scoreGe := by
  rw [pySlice_eq_take]
  exact List.Pairwise.sublist (List.take_sublist _ _) h

theorem mem_pySlice {l : List Result} {r : Result} (h : r ∈ pySlice k l) : r ∈ l := by
  rw [pySlice_eq_take] at h
  exact List.mem_of_mem_take h

theorem sortDesc_sorted (l : List Result) : (sortDesc l).Sorted scoreGe :=
  List.sorted_insertionSort scoreGe l

theorem sortDesc_perm (l : List Result) : (sortDesc l).Perm l :=
  List.perm_insertionSort scoreGe l

theorem le_fst_of_mem_enumFrom {p : Nat × Result} :
    ∀ {l : List Result} {m : Nat}, p ∈ List.enumFrom m l → m ≤ p.1
  | [], _, h => by cases h
  | x :: l, m, h => by
    rcases List.mem_cons.mp (by simpa [List.enumFrom] using h) with rfl | h
    · exact le_refl _
    · exact (Nat.le_succ m).trans (le_fst_of_mem_enumFrom h)

theorem map_snd_orderedInsert (n : Nat) (x : Result) :
    ∀ L : List (Nat × Result), (∀ p ∈ L, n < p.1) →
      (L.orderedInsert lexLe (n, x)).map Prod.snd =
        (L.map Prod.snd).orderedInsert scoreGe x
  | [], _ => rfl
  | q :: L, h => by
    have hq : n < q.1 := h q (List.mem_cons_self _ _)
    by_cases hle : scoreGe x q.2
    · have hlex : lexLe (n, x) q := by
        rcases lt_or_eq_of_le hle with hlt | heq
        · exact Or.inl hlt
        · exact Or.inr ⟨heq.symm, le_of_lt hq⟩
      simp only [List.orderedInsert, if_pos hlex, if_pos hle, List.map_cons]
    · have hlex : ¬ lexLe (n, x) q := by
        have hxlt : x.score < q.2.score := not_le.mp hle
        rintro (hlt | ⟨heq, _⟩)
        · exact absurd hlt (not_lt.mpr (le_of_lt hxlt))
        · exact absurd heq (ne_of_lt hxlt)
      simp only [List.orderedInsert, if_neg hlex, if_neg hle, List.map_cons]
      rw [map_snd_orderedInsert n x L (fun p hp => h p (List.mem_cons_of_mem _ hp))]

theorem map_snd_insertionSort_enumFrom :
    ∀ (l : List Result) (n : Nat),
      ((List.enumFrom n l).insertionSort lexLe).map Prod.snd = l.insertionSort scoreGe
  | [], _ => rfl
  | x :: l, n => by
    have hidx : ∀ p ∈ (List.enumFrom (n + 1) l).insertionSort lexLe, n < p.1 := by
      intro p hp
      have hp2 : p ∈ List.enumFrom (n + 1) l := (List.mem_insertionSort lexLe).mp hp
      exact lt_of_lt_of_le (Nat.lt_succ_self n) (le_fst_of_mem_enumFrom hp2)
    show ((List.insertionSort lexLe ((n, x) :: List.enumFrom (n + 1) l)).map Prod.snd) = _
    rw [List.insertionSort, map_snd_orderedInsert n x _ hidx,
      map_snd_insertionSort_enumFrom l (n + 1)]
    rfl

theorem sortDesc_eq_stableDescSort (l : List Result) : sortDesc l = stableDescSort l := by
  unfold sortDesc stableDescSort
  exact (map_snd_insertionSort_enumFrom l 0).symm

/-! ### Cauchy-Schwarz for lists of rationals -/

theorem sumSq_nonneg (v : List ℚ) : 0 ≤ sumSq v := by
  unfold sumSq
  induction v with
  | nil => simp
  | cons x v ih =>
    rw [List.map_cons, List.sum_cons]
    exact add_nonneg (mul_self_nonneg x) ih

theorem cs_step (x y D A B : ℚ) (hA : 0 ≤ A) (hB : 0 ≤ B) (hD : D ^ 2 ≤ A * B) :
    (x * y + D) ^ 2 ≤ (x ^ 2 + A) * (y ^ 2 + B) := by
  rcases eq_or_lt_of_le hB with h0 | hpos
  · have hD0 : D = 0 := by nlinarith [sq_nonneg D]
    subst hD0
    nlinarith [mul_nonneg hA (sq_nonneg y)]
  · nlinarith [sq_nonneg (x * B - y * D), mul_nonneg (sub_nonneg.mpr hD) (sq_nonneg y),
      mul_nonneg (sub_nonneg.mpr hD) (le_of_lt hpos)]

theorem dot_sq_le :
    ∀ a b : List ℚ, (dot a b) ^ 2 ≤ sumSq a * sumSq b
  | [], b => by
    simp [dot, sumSq]
  | x :: a, [] => by
    simp [dot, sumSq]
  | x :: a, y :: b => by
    have ih := dot_sq_le a b
    have ha := sumSq_nonneg a
    have hb := sumSq_nonneg b
    show (x * y + dot a b) ^ 2 ≤ (x * x + sumSq a) * (y * y + sumSq b)
    have := cs_step x y (dot a b) (sumSq a) (sumSq b) ha hb ih
    nlinarith [this]

/-! ### Lemmas about the tokenizer output -/

theorem toLower_isLower_of_isAlpha (c : Char) :
    (Char.toLower c).isAlpha = true → (Char.toLower c).isLower = true := by
  intro h
  simp only [Char.toLower] at h ⊢
  by_cases hc : c.toNat ≥ 65 ∧ c.toNat ≤ 90
  · rw [if_pos hc] at h ⊢
    obtain ⟨n, hn, h1, h2⟩ : ∃ n, c.toNat = n ∧ 65 ≤ n ∧ n ≤ 90 :=
      ⟨c.toNat, rfl, hc.1, hc.2⟩
    rw [hn] at h ⊢
    interval_cases n <;> decide
  · rw [if_neg hc] at h ⊢
    simp only [Char.isAlpha, Bool.or_eq_true] at h
    rcases h with hup | hlo
    · exfalso
      simp only [Char.isUpper, Bool.and_eq_true, decide_eq_true_eq] at hup
      refine hc ⟨?_, ?_⟩
      · exact UInt32.le_toNat_of_le (by decide) hup.1
      · exact UInt32.toNat_le_of_le (by decide) hup.2
    · exact hlo

theorem runsAux_chars (P : Char → Prop) :
    ∀ (l : List Char) (prevW : Bool) (cur : List Char) (valid : Bool),
      (∀ ch ∈ cur, P ch) → (∀ ch ∈ l, ch.isAlpha = true → P ch) →
      ∀ t ∈ runsAux l prevW cur valid, ∀ ch ∈ t, P ch
  | [], _, cur, valid, hcur, _, t, ht, ch, hch => by
    rw [runsAux] at ht
    split at ht
    · rcases List.mem_singleton.mp ht with rfl
      exact hcur ch (List.mem_reverse.mp hch)
    · cases ht
  | c :: rest, prevW, cur, valid, hcur, hl, t, ht, ch, hch => by
    rw [runsAux] at ht
    by_cases hca : c.isAlpha = true
    · rw [if_pos hca] at ht
      by_cases hce : cur.isEmpty = true
      · rw [if_pos hce] at ht
        refine runsAux_chars P rest true [c] (!prevW) ?_
          (fun x hx ha => hl x (List.mem_cons_of_mem _ hx) ha) t ht ch hch
        intro x hx
        rcases List.mem_singleton.mp hx with rfl
        exact hl x (List.mem_cons_self _ _) hca
      · rw [if_neg hce] at ht
        refine runsAux_chars P rest true (c :: cur) valid ?_
          (fun x hx ha => hl x (List.mem_cons_of_mem _ hx) ha) t ht ch hch
        intro x hx
        rcases List.mem_cons.mp hx with rfl | hx
        · exact hl x (List.mem_cons_self _ _) hca
        · exact hcur x hx
    · rw [if_neg hca] at ht
      rcases List.mem_append.mp ht with ht | ht
      · split at ht
        · rcases List.mem_singleton.mp ht with rfl
          exact hcur ch (List.mem_reverse.mp hch)
        · cases ht
      · refine runsAux_chars P rest (isWordChar c) [] false ?_
          (fun x hx ha => hl x (List.mem_cons_of_mem _ hx) ha) t ht ch hch
        intro x hx
        cases hx

theorem tokenize_tokens_shape (s : List Char) :
    ∀ t ∈ tokenize s, 2 < t.length ∧ ∀ ch ∈ t, ch.isLower = true := by
  intro t ht
  unfold tokenize at ht
  refine ⟨of_decide_eq_true (List.mem_filter.mp ht).2, ?_⟩
  have ht2 : t ∈ wordRuns (s.map Char.toLower) := (List.mem_filter.mp ht).1
  refine runsAux_chars (fun ch => ch.isLower = true) (s.map Char.toLower)
    false [] false ?_ ?_ t ht2
  · intro x hx
    cases hx
  · intro x hx ha
    rcases List.mem_map.mp hx with ⟨y, _, rfl⟩
    exact toLower_isLower_of_isAlpha y ha

/-! ### Lemmas about the search pipelines -/

theorem hybridScores_searchType {lg : ℚ → ℚ} {nrm : List ℚ → ℚ} {c : Corpus}
    {qe : List ℚ} {qw : List Token} {r : Result}
    (h : r ∈ hybridScores lg nrm c qe qw) : r.searchType = "hybrid_tensorflow" := by
  rcases List.mem_map.mp h with ⟨d, _, rfl⟩
  rfl

theorem hybridScores_score {lg : ℚ → ℚ} {nrm : List ℚ → ℚ} {c : Corpus}
    {qe : List ℚ} {qw : List Token} {r : Result}
    (h : r ∈ hybridScores lg nrm c qe qw) : 1/10 < r.score := by
  rcases List.mem_map.mp h with ⟨d, hd, rfl⟩
  exact of_decide_eq_true (List.mem_filter.mp hd).2

theorem lexScores_searchType {lg : ℚ → ℚ} {c : Corpus} {qw : List Token} {r : Result}
    (h : r ∈ lexScores lg c qw) : r.searchType = "hybrid_tfidf" := by
  rcases List.mem_map.mp h with ⟨d, _, rfl⟩
  rfl

theorem lexScores_score {lg : ℚ → ℚ} {c : Corpus} {qw : List Token} {r : Result}
    (h : r ∈ lexScores lg c qw) : 0 < r.score := by
  rcases List.mem_map.mp h with ⟨d, hd, rfl⟩
  exact of_decide_eq_true (List.mem_filter.mp hd).2

theorem pySlice_length_le {k : Int} (hk : 0 ≤ k) (l : List Result) :
    (pySlice k l).length ≤ k.toNat := by
  rw [pySlice_eq_take, if_pos hk, List.length_take]
  exact min_le_left _ _

theorem tfidfKeywordSearch_empty_corpus (lg : ℚ → ℚ) {c : Corpus} (h : c.docs = [])
    (q : List Char) (k : Int) : tfidfKeywordSearch lg c q k = [] := by
  unfold tfidfKeywordSearch lexScores
  rw [h]
  by_cases ht : (tokenize q).isEmpty = true
  · simp [ht]
  · simp [ht, sortDesc, pySlice_eq_take]

theorem mem_tfidfKeywordSearch {lg : ℚ → ℚ} {c : Corpus} {q : List Char} {k : Int}
    {r : Result} (h : r ∈ tfidfKeywordSearch lg c q k) :
    r ∈ lexScores lg c (tokenize q) := by
  unfold tfidfKeywordSearch at h
  by_cases ht : (tokenize q).isEmpty = true
  · simp [ht] at h
  · simp only [ht, if_false] at h
    exact ((sortDesc_perm _).mem_iff).mp (mem_pySlice h)

theorem mem_hybridEmbeddingSearch {lg : ℚ → ℚ} {nrm : List ℚ → ℚ} {c : Corpus}
    {qe : List ℚ} {q : List Char} {k : Int} {r : Result}
    (h : r ∈ hybridEmbeddingSearch lg nrm c qe q k) :
    r ∈ hybridScores lg nrm c qe (tokenize q) :=
  ((sortDesc_perm _).mem_iff).mp (mem_pySlice h)

/-! ## The claims -/

/-- C6 (amended): `tokenize` is deterministic, and returns the maximal runs
of alphabetic characters of the lower-cased text that are delimited by word
boundaries — a run adjacent to a digit or an underscore is not matched,
because `\b[a-zA-Z]+\b` requires non-word characters (or text edges) around
the run — with runs of length ≤ 2 discarded; every returned token is
lower-case and of length > 2.  In particular `tokenize "abc def"` is
`["abc", "def"]` but `tokenize "abc3def"` is `[]`, not `["abc", "def"]` as
the original claim says. -/
theorem C6_tokenize_shape (s : List Char) :
    tokenize s = tokenize s ∧
    (∀ t ∈ tokenize s, 2 < t.length ∧ ∀ ch ∈ t, ch.isLower = true) ∧
    tokenizeStr "abc def" = ["abc", "def"] ∧
    tokenizeStr "abc3def" = [] :=
  ⟨rfl, tokenize_tokens_shape s, by decide, by decide⟩

/-- C6 counterexample: the claim's own example fails on the code — the
word-boundary requirement of the regex makes `tokenize "abc3def"` empty
(it is `[]`), not `["abc", "def"]`. -/
theorem C6_counterexample : tokenizeStr "abc3def" ≠ ["abc", "def"] := by decide

/-- Witness for C6 at a concrete input: the token `"the"` of
`tokenize "The cat"` has length > 2 and is lower-case. -/
theorem C6_witness :
    2 < (['t', 'h', 'e'] : List Char).length ∧
      ∀ ch ∈ (['t', 'h', 'e'] : List Char), ch.isLower = true :=
  (C6_tokenize_shape "The cat".data).2.1 ['t', 'h', 'e'] (by decide)

/-- C5 (amended): the keyword overlap score equals the number of query
tokens counted WITH multiplicity that occur as substrings of the
lower-cased document text, divided by the total number of query tokens
(0 for an empty token list); it coincides with the claimed distinct-token
formula whenever the query has no repeated token, so repeating a token in
the query can change the score. -/
theorem C5_keyword_score_multiplicity (qw : List Token) (content : List Char) :
    (qw ≠ [] → calculateKeywordScore qw content =
      ((qw.countP (fun w => containsSub w (content.map Char.toLower))) : ℚ) /
        ((qw.length : ℚ))) ∧
    (qw = [] → calculateKeywordScore qw content = 0) ∧
    (qw.Nodup → calculateKeywordScore qw content = specKeywordScore qw content) := by
  refine ⟨?_, ?_, ?_⟩
  · intro h
    unfold calculateKeywordScore
    rw [if_neg (fun hq => h (List.isEmpty_iff.mp hq))]
  · intro h
    subst h
    rfl
  · intro h
    unfold calculateKeywordScore specKeywordScore
    rw [List.Nodup.dedup h]

/-- C5 counterexample: for the query `"cat cat dog"` (tokens
`["cat", "cat", "dog"]`) against the document `"cat"`, the code computes
`2/3` while the claimed distinct-token formula gives `1/2`; repeating the
token `"cat"` changed the score from `1/2` to `2/3`. -/
theorem C5_counterexample :
    calculateKeywordScore (tokenize "cat cat dog".data) "cat".data ≠
      specKeywordScore (tokenize "cat cat dog".data) "cat".data ∧
    calculateKeywordScore (tokenize "cat cat dog".data) "cat".data ≠
      calculateKeywordScore (tokenize "cat dog".data) "cat".data := by
  have ht1 : tokenize "cat cat dog".data =
      [['c', 'a', 't'], ['c', 'a', 't'], ['d', 'o', 'g']] := by decide
  have ht2 : tokenize "cat dog".data = [['c', 'a', 't'], ['d', 'o', 'g']] := by decide
  have e1 : calculateKeywordScore (tokenize "cat cat dog".data) "cat".data = 2/3 := by
    rw [ht1]
    unfold calculateKeywordScore
    rw [if_neg (by decide),
      show ([['c', 'a', 't'], ['c', 'a', 't'], ['d', 'o', 'g']] : List Token).countP
        (fun w => containsSub w ("cat".data.map Char.toLower)) = 2 from by decide]
    norm_num
  have e2 : specKeywordScore (tokenize "cat cat dog".data) "cat".data = 1/2 := by
    rw [ht1]
    unfold specKeywordScore
    rw [show ([['c', 'a', 't'], ['c', 'a', 't'], ['d', 'o', 'g']] : List Token).dedup =
        [['c', 'a', 't'], ['d', 'o', 'g']] from by decide]
    rw [if_neg (by decide),
      show ([['c', 'a', 't'], ['d', 'o', 'g']] : List Token).countP
        (fun w => containsSub w ("cat".data.map Char.toLower)) = 1 from by decide]
    norm_num
  have e3 : calculateKeywordScore (tokenize "cat dog".data) "cat".data = 1/2 := by
    rw [ht2]
    unfold calculateKeywordScore
    rw [if_neg (by decide),
      show ([['c', 'a', 't'], ['d', 'o', 'g']] : List Token).countP
        (fun w => containsSub w ("cat".data.map Char.toLower)) = 1 from by decide]
    norm_num
  rw [e1, e2, e3]
  norm_num

/-- Witness for C5 at a concrete input: on the duplicate-free query
`"cat dog"` the code score equals the multiplicity formula and the
distinct-token formula. -/
theorem C5_witness :
    calculateKeywordScore (tokenize "cat dog".data) "cat".data =
      (((tokenize "cat dog".data).countP
        (fun w => containsSub w ("cat".data.map Char.toLower))) : ℚ) /
        (((tokenize "cat dog".data).length : ℚ)) ∧
    calculateKeywordScore (tokenize "cat dog".data) "cat".data =
      specKeywordScore (tokenize "cat dog".data) "cat".data :=
  ⟨(C5_keyword_score_multiplicity (tokenize "cat dog".data) "cat".data).1 (by decide),
   (C5_keyword_score_multiplicity (tokenize "cat dog".data) "cat".data).2.2 (by decide)⟩

/-- C4 (amended): in every state reachable by `add_document` calls, the
SQLite TF-IDF score equals the claimed formula — the sum over the query
token list of `(term_frequency[doc][t] / total_terms[doc]) *
ln(N / document_frequency[t])` for tokens present in the document with
positive document frequency, and `0` for absent or zero-frequency tokens —
with `N = len(self.documents)`, the total document count.  The Postgres
variant instead uses `N = len(self.word_frequencies)`, the number of
registered per-document counters, read after the call's own `defaultdict`
access registered the scored document: a document whose content produced
no tokens is not counted until it is first scored, and within one search
every call hands the grown key list to the next, so later documents can
see a larger `N`.  When every stored document's content produces at least
one token, the Postgres `N` equals the total document count and the
original formula is recovered.  In both variants, whenever a query token
is present in the document the divisor `total_terms[doc]` and the document
frequency are positive, so no division by zero or log of infinity
occurs. -/
theorem C4_tfidf_formula (lg : ℚ → ℚ) (adds : List AddReq) (qw : List Token)
    (docId : Nat) :
    calculateTfidfScore lg (buildCorpus adds) qw docId =
      specTfidfScore lg (buildCorpus adds) (buildCorpus adds).docs.length docId qw ∧
    (∀ keys : List Nat,
      pgCalculateTfidfScoreState lg (buildCorpus adds) keys qw docId =
        (specTfidfScore lg (buildCorpus adds) (pgRegisterKey keys docId).length docId qw,
         if qw.isEmpty then keys else pgRegisterKey keys docId)) ∧
    ((∀ a ∈ adds, (tokenize a.1).isEmpty = false) →
      ∀ d ∈ (buildCorpus adds).docs,
        pgCalculateTfidfScore lg (buildCorpus adds) qw d.id =
          specTfidfScore lg (buildCorpus adds) (buildCorpus adds).docs.length d.id qw) ∧
    (∀ w ∈ qw, hasKey ((buildCorpus adds).wordFrequencies docId) w = true →
      0 < sumCounts ((buildCorpus adds).wordFrequencies docId) ∧
      0 < (buildCorpus adds).documentFrequencies w) := by
  refine ⟨calculateTfidfScore_eq_spec lg _ qw docId,
    fun keys => pgCalculateTfidfScoreState_eq lg _ keys qw docId, ?_,
    fun _ _ hw => tfidf_guards (corpusInv_buildCorpus adds) hw⟩
  intro hall d hd
  obtain ⟨hkeys, hreg⟩ := pg_keys_of_all_tokenized hall
  rw [pgCalculateTfidfScore_eq_spec, hreg d hd, hkeys, List.length_map]

/-- C4 counterexample: `N` is not the total document count in the Postgres
variant.  In the reachable state holding the token-less document 1
(content `"a b"`, never registered in `word_frequencies`) and document 2
(`"machine learning"`), the corpus has 2 documents but
`len(self.word_frequencies)` is 1 when document 2 is scored; for a log
stand-in with `lg 1 = 0 ≠ lg 2` — as the real `ln` — the code's score for
the query token `"machine"` is `(1/2)*lg 1 = 0`, while the claimed formula
gives `(1/2)*lg 2 ≠ 0`. -/
theorem C4_counterexample :
    pgCalculateTfidfScore lgOne
        (buildCorpus [("a b".data, none, none), ("machine learning".data, none, none)])
        [['m', 'a', 'c', 'h', 'i', 'n', 'e']] 2 ≠
      specTfidfScore lgOne
        (buildCorpus [("a b".data, none, none), ("machine learning".data, none, none)])
        (buildCorpus [("a b".data, none, none),
          ("machine learning".data, none, none)]).docs.length
        2 [['m', 'a', 'c', 'h', 'i', 'n', 'e']] := by
  have heval : ∀ N : Nat, specTfidfScore lgOne
      (buildCorpus [("a b".data, none, none), ("machine learning".data, none, none)])
      N 2 [['m', 'a', 'c', 'h', 'i', 'n', 'e']] = (1/2) * ((N : ℚ) / 1 - 1) := by
    intro N
    unfold specTfidfScore specTfidfContribution
    rw [show (buildCorpus [("a b".data, none, none),
          ("machine learning".data, none, none)]).wordFrequencies 2 =
        [(['m', 'a', 'c', 'h', 'i', 'n', 'e'], 1), (['l', 'e', 'a', 'r', 'n', 'i', 'n', 'g'], 1)]
        from by decide]
    simp only [List.map_cons, List.map_nil, List.sum_cons, List.sum_nil]
    rw [show (buildCorpus [("a b".data, none, none),
          ("machine learning".data, none, none)]).documentFrequencies
        ['m', 'a', 'c', 'h', 'i', 'n', 'e'] = 1 from by decide]
    rw [show hasKey [(['m', 'a', 'c', 'h', 'i', 'n', 'e'], 1),
          (['l', 'e', 'a', 'r', 'n', 'i', 'n', 'g'], 1)] ['m', 'a', 'c', 'h', 'i', 'n', 'e'] =
        true from by decide]
    rw [show lookupCount [(['m', 'a', 'c', 'h', 'i', 'n', 'e'], 1),
          (['l', 'e', 'a', 'r', 'n', 'i', 'n', 'g'], 1)] ['m', 'a', 'c', 'h', 'i', 'n', 'e'] =
        1 from by decide]
    rw [show sumCounts [(['m', 'a', 'c', 'h', 'i', 'n', 'e'], 1),
          (['l', 'e', 'a', 'r', 'n', 'i', 'n', 'g'], 1)] = 2 from by decide]
    norm_num [lgOne]
  rw [pgCalculateTfidfScore_eq_spec]
  rw [show (pgRegisterKey (buildCorpus [("a b".data, none, none),
      ("machine learning".data, none, none)]).wfKeys 2).length = 1 from by decide]
  rw [show (buildCorpus [("a b".data, none, none),
      ("machine learning".data, none, none)]).docs.length = 2 from by decide]
  rw [heval 1, heval 2]
  norm_num

/-- Witness for C4 at a concrete input: in the one-document corpus
`"machine learning"` (whose content has tokens), the token `"machine"` is
present in document 1, the TF-IDF divisors are positive, and the Postgres
score coincides with the claimed formula at `N` = the document count. -/
theorem C4_witness :
    (0 < sumCounts ((buildCorpus [("machine learning".data, none, none)]).wordFrequencies 1) ∧
     0 < (buildCorpus [("machine learning".data, none, none)]).documentFrequencies
       "machine".data) ∧
    pgCalculateTfidfScore lgZero (buildCorpus [("machine learning".data, none, none)])
        ["machine".data] 1 =
      specTfidfScore lgZero (buildCorpus [("machine learning".data, none, none)])
        (buildCorpus [("machine learning".data, none, none)]).docs.length 1
        ["machine".data] :=
  ⟨(C4_tfidf_formula lgZero [("machine learning".data, none, none)]
      ["machine".data] 1).2.2.2 "machine".data (by decide) (by decide),
   (C4_tfidf_formula lgZero [("machine learning".data, none, none)]
      ["machine".data] 1).2.2.1 (by decide)
     ⟨1, "machine learning".data, none, none⟩ (by decide)⟩

/-- C8: after any sequence of `add_document` calls starting from a fresh
engine, `document_frequency[t]` equals the number of stored documents whose
tokenized content contains `t`, equivalently the number of document ids
whose term counter has a positive count for `t`; all assigned ids are
distinct, and adding the same content twice yields the two distinct ids 1
and 2 and a document frequency of 2 for each of its terms. -/
theorem C8_document_frequency_invariant (adds : List AddReq) :
    (∀ t, (buildCorpus adds).documentFrequencies t =
      (buildCorpus adds).docs.countP (fun d => decide (t ∈ tokenize d.content))) ∧
    (∀ t, (buildCorpus adds).documentFrequencies t =
      (buildCorpus adds).docs.countP
        (fun d => decide (0 < lookupCount ((buildCorpus adds).wordFrequencies d.id) t))) ∧
    ((buildCorpus adds).docs.map StoredDoc.id).Nodup ∧
    (∀ (s : List Char) (e1 e2 : Option (List ℚ)) (m1 m2 : Option (List Char)) (t : Token),
      t ∈ tokenize s →
      (buildCorpus [(s, e1, m1), (s, e2, m2)]).documentFrequencies t = 2 ∧
      (buildCorpus [(s, e1, m1), (s, e2, m2)]).docs.map StoredDoc.id = [1, 2]) := by
  have hinv := corpusInv_buildCorpus adds
  refine ⟨hinv.df_eq, ?_, hinv.ids_nodup, ?_⟩
  · intro t
    rw [hinv.df_eq t]
    exact (countP_lookup_eq hinv t).symm
  · intro s e1 e2 m1 m2 t ht
    constructor
    · rw [(corpusInv_buildCorpus [(s, e1, m1), (s, e2, m2)]).df_eq t]
      show List.countP (fun d => decide (t ∈ tokenize d.content))
        ([⟨1, s, e1, m1⟩, ⟨2, s, e2, m2⟩] : List StoredDoc) = 2
      simp [List.countP_cons, ht]
    · rfl

/-- Witness for C8 at a concrete input: adding `"big cat"` twice gives the
distinct ids 1 and 2 and document frequency 2 for the term `"cat"`. -/
theorem C8_witness :
    (buildCorpus [("big cat".data, none, none), ("big cat".data, none, none)]).documentFrequencies
      "cat".data = 2 ∧
    (buildCorpus [("big cat".data, none, none), ("big cat".data, none, none)]).docs.map
      StoredDoc.id = [1, 2] :=
  (C8_document_frequency_invariant []).2.2.2 "big cat".data none none none none
    "cat".data (by decide)

/-- C7: the vector score used in blending is the cosine similarity
`dot(q, d) / (‖q‖ * ‖d‖)` floored at 0.  Whenever the norm function
returns the true Euclidean norms of the two vectors involved (the
non-negative square roots of their sums of squares), the score lies in
`[0, 1]`; when either vector is a zero vector the score is 0 and the
computation is total (the `0/0` of the source produces `nan`, which
`max(0, ...)` turns into `0`; the embedding's total division yields the
same value). -/
theorem C7_cosine_bounds (nrm : List ℚ → ℚ) (q d : List ℚ) (nq nd : ℚ)
    (hql : nrm q = nq) (hdl : nrm d = nd) (hq0 : 0 ≤ nq) (hd0 : 0 ≤ nd)
    (hqs : nq * nq = sumSq q) (hds : nd * nd = sumSq d) :
    0 ≤ vectorScore nrm q d ∧ vectorScore nrm q d ≤ 1 ∧
      ((sumSq q = 0 ∨ sumSq d = 0) → vectorScore nrm q d = 0) := by
  have hvs : vectorScore nrm q d = max 0 (dot q d / (nq * nd)) := by
    unfold vectorScore
    rw [hql, hdl]
  refine ⟨?_, ?_, ?_⟩
  · rw [hvs]
    exact le_max_left _ _
  · rw [hvs]
    rcases eq_or_lt_of_le (mul_nonneg hq0 hd0) with hz | hpos
    · rw [← hz, div_zero]
      norm_num
    · have hcs := dot_sq_le q d
      rw [← hqs, ← hds] at hcs
      have hdot : dot q d ≤ nq * nd := by nlinarith [hcs, hpos]
      exact max_le (by norm_num) ((div_le_one hpos).mpr hdot)
  · intro hzero
    rw [hvs]
    have hnd0 : nq * nd = 0 := by
      rcases hzero with hq | hd
      · have h1 : nq * nq = 0 := by rw [hqs, hq]
        rw [mul_self_eq_zero.mp h1, zero_mul]
      · have h1 : nd * nd = 0 := by rw [hds, hd]
        rw [mul_self_eq_zero.mp h1, mul_zero]
    rw [hnd0, div_zero]
    norm_num

/-- Witness for C7 at concrete inputs: for the vectors `[3, 4]` and
`[4, 3]` (norms 5) the floored cosine lies in `[0, 1]`, and for the zero
vector `[0, 0]` the score is 0. -/
theorem C7_witness :
    (0 ≤ vectorScore nrmW [3, 4] [4, 3] ∧ vectorScore nrmW [3, 4] [4, 3] ≤ 1) ∧
      vectorScore nrmW [0, 0] [3, 4] = 0 := by
  have h1 := C7_cosine_bounds nrmW [3, 4] [4, 3] 5 5 (by norm_num [nrmW])
    (by norm_num [nrmW]) (by norm_num) (by norm_num)
    (by norm_num [sumSq]) (by norm_num [sumSq])
  have h2 := C7_cosine_bounds nrmW [0, 0] [3, 4] 0 5 (by norm_num [nrmW])
    (by norm_num [nrmW]) le_rfl (by norm_num)
    (by norm_num [sumSq]) (by norm_num [sumSq])
  exact ⟨⟨h1.1, h1.2.1⟩, h2.2.2 (Or.inl (by norm_num [sumSq]))⟩

/-- C1 (amended): in hybrid mode the SQLite engine scores every stored
document with `0.6 * vector + 0.25 * tfidf + 0.15 * keyword`, the vector
score being 0 for documents without a (non-empty) stored embedding; the
weights sum to 1 and the vector weight is strictly largest.  The Postgres
engine, however, scores ONLY the documents that have a stored embedding
(its query filters `Document.embedding.isnot(None)`), with weights
`0.7 / 0.2 / 0.1`, which also sum to 1 with the vector weight strictly
largest; a document without an embedding receives no scores at all there,
contrary to the original claim. -/
theorem C1_hybrid_weights (lg : ℚ → ℚ) (nrm : List ℚ → ℚ) (c : Corpus)
    (qe : List ℚ) (qw : List Token) :
    (∀ d ∈ c.docs,
      hybridCombined lg nrm c qe qw d =
        (6/10) * docVectorScore nrm qe d +
          (25/100) * calculateTfidfScore lg c qw d.id +
          (15/100) * calculateKeywordScore qw d.content ∧
      (d.embedding = none → docVectorScore nrm qe d = 0)) ∧
    ((6 : ℚ)/10 + 25/100 + 15/100 = 1 ∧ (25 : ℚ)/100 < 6/10 ∧ (15 : ℚ)/100 < 6/10) ∧
    pgScoredDocs c = c.docs.filter (fun d => d.embedding.isSome) ∧
    (∀ d ∈ pgScoredDocs c,
      d.embedding.isSome = true ∧
      pgHybridCombined lg nrm c qe qw d =
        (7/10) * docVectorScore nrm qe d +
          (2/10) * pgCalculateTfidfScore lg c qw d.id +
          (1/10) * calculateKeywordScore qw d.content) ∧
    ((7 : ℚ)/10 + 2/10 + 1/10 = 1 ∧ (2 : ℚ)/10 < 7/10 ∧ (1 : ℚ)/10 < 7/10) := by
  refine ⟨?_, ⟨by norm_num, by norm_num, by norm_num⟩, rfl, ?_,
    ⟨by norm_num, by norm_num, by norm_num⟩⟩
  · intro d _
    constructor
    · cases he : d.embedding with
      | none => simp [hybridCombined, docVectorScore, he]
      | some e => simp [hybridCombined, docVectorScore, vectorScore, he]
    · intro he
      simp [docVectorScore, he]
  · intro d hd
    refine ⟨(List.mem_filter.mp hd).2, ?_⟩
    cases he : d.embedding with
    | none => simp [pgHybridCombined, docVectorScore, he]
    | some e => simp [pgHybridCombined, docVectorScore, vectorScore, he]

/-- C1 counterexample: the claim fails for the Postgres engine — a stored
document without an embedding is excluded from the hybrid scoring loop
entirely (the document query filters `embedding IS NOT NULL`), so it does
not receive a `tfidf_score` or a `keyword_score`: in a corpus holding only
the embedding-less document 1, the set of scored document ids is empty. -/
theorem C1_counterexample :
    ¬ ∀ (c : Corpus), ∀ d ∈ c.docs, d.id ∈ pgScoredIds c := by
  intro h
  have hmem : (⟨1, "machine learning basics".data, none, none⟩ : StoredDoc) ∈
      (buildCorpus [("machine learning basics".data, none, none)]).docs := by decide
  have hid := h (buildCorpus [("machine learning basics".data, none, none)]) _ hmem
  revert hid
  decide

/-- Witness for C1 at a concrete input: the combined score of the single
document of the corpus `"alpha beta"` decomposes into the weighted sum. -/
theorem C1_witness :
    hybridCombined lgZero nrmZero (buildCorpus [("alpha beta".data, none, none)]) [1]
        ["beta".data] ⟨1, "alpha beta".data, none, none⟩ =
      (6/10) * docVectorScore nrmZero [1] ⟨1, "alpha beta".data, none, none⟩ +
        (25/100) * calculateTfidfScore lgZero
          (buildCorpus [("alpha beta".data, none, none)]) ["beta".data] 1 +
        (15/100) * calculateKeywordScore ["beta".data] "alpha beta".data :=
  ((C1_hybrid_weights lgZero nrmZero (buildCorpus [("alpha beta".data, none, none)]) [1]
    ["beta".data]).1 ⟨1, "alpha beta".data, none, none⟩ (by decide)).1

/-- With an empty token list both lexical scores are 0, so the combined
lexical score is 0. -/
theorem lexCombined_nil (lg : ℚ → ℚ) (c : Corpus) (d : StoredDoc) :
    lexCombined lg c [] d = 0 := by
  unfold lexCombined calculateTfidfScore calculateKeywordScore
  norm_num

/-- With an empty token list no document clears the strict lexical
threshold. -/
theorem lexScores_nil (lg : ℚ → ℚ) (c : Corpus) : lexScores lg c [] = [] := by
  unfold lexScores
  rw [List.filter_eq_nil_iff.mpr ?_, List.map_nil]
  intro d _
  rw [lexCombined_nil]
  norm_num

/-- C9 (amended): the search entry points are total over malformed input —
nothing raises — but two of the claimed normalizations do not hold.  A
query that tokenizes to no tokens returns `[]` from the lexical scoring
path, hence from `search_similar` whenever the embedding provider is
unavailable or fails; in full hybrid mode, however, a token-less query is
still scored on the vector term alone and can return non-empty results
(see the counterexample).  An empty corpus returns `[]`.  And a requested
`k ≤ 0` is NOT normalized to a minimum of 1 — `k` is used as a raw Python
slice bound, so `k = 0` yields `[]` and a negative `k` drops the last
`|k|` results instead of being clamped. -/
theorem C9_malformed_inputs (lg : ℚ → ℚ) (nrm : List ℚ → ℚ) (modelLoaded : Bool)
    (qe : Option (List ℚ)) (exc : Bool) (c : Corpus) (q : List Char) (k : Int) :
    ((tokenize q).isEmpty = true → tfidfKeywordSearch lg c q k = []) ∧
    (c.docs.isEmpty = true → searchSimilar lg nrm modelLoaded qe exc c q k = []) ∧
    tfidfKeywordSearch lg c q 0 = [] ∧
    (k < 0 → tfidfKeywordSearch lg c q k =
      (sortDesc (lexScores lg c (tokenize q))).take
        ((sortDesc (lexScores lg c (tokenize q))).length - (-k).toNat)) := by
  refine ⟨?_, ?_, ?_, ?_⟩
  · intro ht
    unfold tfidfKeywordSearch
    simp [ht]
  · intro hc
    unfold searchSimilar
    rw [if_pos hc]
  · unfold tfidfKeywordSearch
    by_cases ht : (tokenize q).isEmpty = true
    · simp [ht]
    · simp only [ht, Bool.false_eq_true, if_false]
      rw [pySlice_eq_take]
      simp
  · intro hk
    unfold tfidfKeywordSearch
    by_cases ht : (tokenize q).isEmpty = true
    · rw [if_pos ht, List.isEmpty_iff.mp ht, lexScores_nil]
      simp [sortDesc]
    · simp only [ht, Bool.false_eq_true, if_false]
      rw [pySlice_eq_take, if_neg (not_le.mpr hk)]

/-- C9 counterexample: three clauses of the claim fail on the code.  With
three documents all matching the query and `k = -1`, the lexical search
returns 2 results (Python's `results[:-1]` drops the last one) — not at
most one as normalizing `k ≤ 0` to 1 would give; with `k = 0` it returns
`[]` although a matching document exists; and a query that tokenizes to no
tokens (here `"   "`) does NOT always return an empty list from the entry
point: with the model loaded and a usable query embedding,
`search_similar` scores the token-less query on the vector term alone
(`0.6 * 1 > 0.1`) and returns a non-empty result list. -/
theorem C9_counterexample :
    ((tfidfKeywordSearch lgZero
        (buildCorpus [("cat".data, none, none), ("cat".data, none, none),
          ("cat".data, none, none)]) "cat".data (-1)).length = 2 ∧
    tfidfKeywordSearch lgZero
        (buildCorpus [("cat".data, none, none), ("cat".data, none, none),
          ("cat".data, none, none)]) "cat".data 0 = []) ∧
    (tokenize "   ".data).isEmpty = true ∧
    searchSimilar lgZero nrmOne true (some [1]) false
      (buildCorpus [("alpha beta".data, some [1], none)]) "   ".data 5 ≠ [] := by
  refine ⟨?_, by decide, ?_⟩
  case refine_2 =>
    have htok : tokenize "   ".data = ([] : List Token) := by decide
    have hcomb : hybridCombined lgZero nrmOne
        (buildCorpus [("alpha beta".data, some [1], none)]) [1] []
        ⟨1, "alpha beta".data, some [1], none⟩ = 3/5 := by
      unfold hybridCombined calculateTfidfScore calculateKeywordScore
      norm_num [nrmOne, dot, lgZero]
    have hgt : (1:ℚ)/10 < hybridCombined lgZero nrmOne
        (buildCorpus [("alpha beta".data, some [1], none)]) [1] []
        ⟨1, "alpha beta".data, some [1], none⟩ := by
      rw [hcomb]
      norm_num
    have hne : (hybridScores lgZero nrmOne
        (buildCorpus [("alpha beta".data, some [1], none)]) [1]
        (tokenize "   ".data)).length = 1 := by
      rw [htok]
      unfold hybridScores
      rw [show (buildCorpus [("alpha beta".data, some [1], none)]).docs =
        [⟨1, "alpha beta".data, some [1], none⟩] from by decide]
      simp only [List.filter_cons, List.filter_nil, decide_eq_true hgt]
      simp
    intro hempty
    have hss : searchSimilar lgZero nrmOne true (some [1]) false
        (buildCorpus [("alpha beta".data, some [1], none)]) "   ".data 5 =
        pySlice 5 (sortDesc (hybridScores lgZero nrmOne
          (buildCorpus [("alpha beta".data, some [1], none)]) [1]
          (tokenize "   ".data))) := rfl
    rw [hss] at hempty
    have hlen := congrArg List.length hempty
    rw [pySlice_eq_take, if_pos (by norm_num), List.length_take,
      (sortDesc_perm _).length_eq, hne] at hlen
    norm_num at hlen
  have hpos : ∀ i ∈ [1, 2, 3], (0:ℚ) < lexCombined lgZero
      (buildCorpus [("cat".data, none, none), ("cat".data, none, none),
        ("cat".data, none, none)]) [['c', 'a', 't']] ⟨i, "cat".data, none, none⟩ := by
    intro i hi
    have hwf : (buildCorpus [("cat".data, none, none), ("cat".data, none, none),
        ("cat".data, none, none)]).wordFrequencies i = [(['c', 'a', 't'], 1)] := by
      fin_cases hi <;> decide
    have hdf : (buildCorpus [("cat".data, none, none), ("cat".data, none, none),
        ("cat".data, none, none)]).documentFrequencies ['c', 'a', 't'] = 3 := by decide
    have hlen : (buildCorpus [("cat".data, none, none), ("cat".data, none, none),
        ("cat".data, none, none)]).docs.length = 3 := by decide
    unfold lexCombined calculateTfidfScore calculateKeywordScore
    simp only [hwf, hdf, hlen]
    norm_num [lgZero, sumCounts, List.foldl, List.find?, containsSub, startsWith,
      List.countP, List.countP.go]
    decide
  have hlex : (lexScores lgZero
      (buildCorpus [("cat".data, none, none), ("cat".data, none, none),
        ("cat".data, none, none)]) (tokenize "cat".data)).length = 3 := by
    unfold lexScores
    rw [show tokenize "cat".data = [['c', 'a', 't']] from by decide]
    rw [show (buildCorpus [("cat".data, none, none), ("cat".data, none, none),
        ("cat".data, none, none)]).docs =
      [⟨1, "cat".data, none, none⟩, ⟨2, "cat".data, none, none⟩,
        ⟨3, "cat".data, none, none⟩] from by decide]
    rw [List.filter_cons, List.filter_cons, List.filter_cons, List.filter_nil]
    rw [decide_eq_true (hpos 1 (by decide)), decide_eq_true (hpos 2 (by decide)),
      decide_eq_true (hpos 3 (by decide))]
    simp
  constructor
  · unfold tfidfKeywordSearch
    rw [if_neg (by decide)]
    rw [pySlice_eq_take, if_neg (by decide)]
    rw [List.length_take, (sortDesc_perm _).length_eq, hlex]
    decide
  · unfold tfidfKeywordSearch
    rw [if_neg (by decide)]
    rw [pySlice_eq_take, if_pos (by decide)]
    simp

/-- Witness for C9 at concrete inputs: the whitespace-only query returns
`[]` from the lexical path, and the empty corpus returns `[]` from
`search_similar`. -/
theorem C9_witness :
    tfidfKeywordSearch lgZero (buildCorpus [("alpha beta".data, none, none)])
        "   ".data 5 = [] ∧
    searchSimilar lgZero nrmZero true (some [1]) false (buildCorpus []) "cat".data 5 = [] :=
  ⟨(C9_malformed_inputs lgZero nrmZero true (some [1]) false
      (buildCorpus [("alpha beta".data, none, none)]) "   ".data 5).1 (by decide),
   (C9_malformed_inputs lgZero nrmZero true (some [1]) false
      (buildCorpus []) "cat".data 5).2.1 (by decide)⟩

/-- C2: when the embedding model is unavailable (`self.embedding_model.model`
falsy) or when it yields no query embedding, `search_similar` returns
exactly the result of lexical-only scoring — the combined score
`0.7 * tfidf + 0.3 * keyword` over every document, thresholded at 0,
sorted descending, truncated to `k` — and every lexical result carries the
search-path tag `"hybrid_tfidf"`, distinct from the hybrid path's
`"hybrid_tensorflow"`. -/
theorem C2_lexical_fallback (lg : ℚ → ℚ) (nrm : List ℚ → ℚ) (qe : Option (List ℚ))
    (exc : Bool) (c : Corpus) (q : List Char) (k : Int) :
    searchSimilar lg nrm false qe exc c q k = tfidfKeywordSearch lg c q k ∧
    searchSimilar lg nrm true none exc c q k = tfidfKeywordSearch lg c q k ∧
    (∀ d ∈ c.docs, lexCombined lg c (tokenize q) d =
      (7/10) * calculateTfidfScore lg c (tokenize q) d.id +
        (3/10) * calculateKeywordScore (tokenize q) d.content) ∧
    (∀ r ∈ tfidfKeywordSearch lg c q k, r.searchType = "hybrid_tfidf") ∧
    (∀ (e : List ℚ) (r : Result), r ∈ hybridEmbeddingSearch lg nrm c e q k →
      r.searchType = "hybrid_tensorflow") ∧
    "hybrid_tfidf" ≠ "hybrid_tensorflow" := by
  refine ⟨?_, ?_, ?_, ?_, ?_, by decide⟩
  · unfold searchSimilar
    by_cases hc : c.docs.isEmpty = true
    · rw [if_pos hc]
      exact (tfidfKeywordSearch_empty_corpus lg (List.isEmpty_iff.mp hc) q k).symm
    · simp [hc]
  · unfold searchSimilar
    by_cases hc : c.docs.isEmpty = true
    · rw [if_pos hc]
      exact (tfidfKeywordSearch_empty_corpus lg (List.isEmpty_iff.mp hc) q k).symm
    · simp [hc]
  · intro d _
    rfl
  · intro r hr
    exact lexScores_searchType (mem_tfidfKeywordSearch hr)
  · intro e r hr
    exact hybridScores_searchType (mem_hybridEmbeddingSearch hr)

/-- Witness for C2 at a concrete input: with the model unavailable,
`search_similar` on a one-document corpus equals the lexical search, and
the combined lexical score of that document is the claimed weighted sum. -/
theorem C2_witness :
    searchSimilar lgZero nrmZero false none false
        (buildCorpus [("alpha beta".data, none, none)]) "beta".data 5 =
      tfidfKeywordSearch lgZero (buildCorpus [("alpha beta".data, none, none)])
        "beta".data 5 ∧
    lexCombined lgZero (buildCorpus [("alpha beta".data, none, none)])
        (tokenize "beta".data) ⟨1, "alpha beta".data, none, none⟩ =
      (7/10) * calculateTfidfScore lgZero (buildCorpus [("alpha beta".data, none, none)])
          (tokenize "beta".data) 1 +
        (3/10) * calculateKeywordScore (tokenize "beta".data) "alpha beta".data :=
  ⟨(C2_lexical_fallback lgZero nrmZero none false
      (buildCorpus [("alpha beta".data, none, none)]) "beta".data 5).1,
   (C2_lexical_fallback lgZero nrmZero none false
      (buildCorpus [("alpha beta".data, none, none)]) "beta".data 5).2.2.1
     ⟨1, "alpha beta".data, none, none⟩ (by decide)⟩

/-- C3: for every corpus, query embedding, query and `k ≥ 1`, both search
paths return a list sorted by combined score in descending order, with
ties broken by insertion order (the result equals the take-`k` of the
lexicographic (score descending, position ascending) reordering of the
scored rows); every hybrid result scores strictly above the 0.1 threshold
and every lexical result strictly above 0; the result length is at most
`k`; and when at most `k` rows clear the threshold the result is a
permutation of all of them (no padding). -/
theorem C3_threshold_sort_topk (lg : ℚ → ℚ) (nrm : List ℚ → ℚ) (c : Corpus)
    (qe : List ℚ) (q : List Char) (k : Int) (hk : 1 ≤ k) :
    (hybridEmbeddingSearch lg nrm c qe q k).Sorted scoreGe ∧
    (tfidfKeywordSearch lg c q k).Sorted scoreGe ∧
    (∀ r ∈ hybridEmbeddingSearch lg nrm c qe q k, 1/10 < r.score) ∧
    (∀ r ∈ tfidfKeywordSearch lg c q k, 0 < r.score) ∧
    (hybridEmbeddingSearch lg nrm c qe q k).length ≤ k.toNat ∧
    (tfidfKeywordSearch lg c q k).length ≤ k.toNat ∧
    hybridEmbeddingSearch lg nrm c qe q k =
      pySlice k (stableDescSort (hybridScores lg nrm c qe (tokenize q))) ∧
    ((hybridScores lg nrm c qe (tokenize q)).length ≤ k.toNat →
      (hybridEmbeddingSearch lg nrm c qe q k).Perm
        (hybridScores lg nrm c qe (tokenize q))) := by
  have hk0 : (0 : Int) ≤ k := le_trans (by norm_num) hk
  refine ⟨?_, ?_, ?_, ?_, ?_, ?_, ?_, ?_⟩
  · exact pySlice_sorted (sortDesc_sorted _) k
  · unfold tfidfKeywordSearch
    by_cases ht : (tokenize q).isEmpty = true
    · simp [ht]
    · simp only [ht, Bool.false_eq_true, if_false]
      exact pySlice_sorted (sortDesc_sorted _) k
  · intro r hr
    exact hybridScores_score (mem_hybridEmbeddingSearch hr)
  · intro r hr
    exact lexScores_score (mem_tfidfKeywordSearch hr)
  · exact pySlice_length_le hk0 _
  · unfold tfidfKeywordSearch
    by_cases ht : (tokenize q).isEmpty = true
    · simp [ht]
    · simp only [ht, Bool.false_eq_true, if_false]
      exact pySlice_length_le hk0 _
  · unfold hybridEmbeddingSearch
    rw [sortDesc_eq_stableDescSort]
  · intro hlen
    unfold hybridEmbeddingSearch
    have hlen2 : (sortDesc (hybridScores lg nrm c qe (tokenize q))).length ≤ k.toNat := by
      rw [(sortDesc_perm _).length_eq]
      exact hlen
    rw [pySlice_eq_take, if_pos hk0, List.take_of_length_le hlen2]
    exact sortDesc_perm _

/-- Witness for C3 at a concrete input: the lexical search over a
one-document corpus with `k = 5` returns at most 5 results. -/
theorem C3_witness :
    (tfidfKeywordSearch lgZero (buildCorpus [("alpha beta".data, none, none)])
      "beta".data 5).length ≤ (5 : Int).toNat :=
  (C3_threshold_sort_topk lgZero nrmZero (buildCorpus [("alpha beta".data, none, none)])
    [1] "beta".data 5 (by norm_num)).2.2.2.2.2.1

/-- C10: given the in-memory corpus and frequency index, `search_similar`
is total: every call returns a list that is either empty (empty corpus),
the lexical-only result, or the hybrid-embedding result for the obtained
query embedding; and under every failure of the embedding path — model not
loaded, query encoding returning `None`, or an exception raised inside the
`try` of `_hybrid_embedding_search` (all modelled as explicit inputs) —
the call returns exactly the lexical fallback result. -/
theorem C10_total_with_fallback (lg : ℚ → ℚ) (nrm : List ℚ → ℚ) (modelLoaded : Bool)
    (qe : Option (List ℚ)) (exc : Bool) (c : Corpus) (q : List Char) (k : Int) :
    (searchSimilar lg nrm modelLoaded qe exc c q k = [] ∨
     searchSimilar lg nrm modelLoaded qe exc c q k = tfidfKeywordSearch lg c q k ∨
     ∃ e, qe = some e ∧
       searchSimilar lg nrm modelLoaded qe exc c q k = hybridEmbeddingSearch lg nrm c e q k) ∧
    ((modelLoaded = false ∨ qe = none ∨ exc = true) → c.docs.isEmpty = false →
      searchSimilar lg nrm modelLoaded qe exc c q k = tfidfKeywordSearch lg c q k) := by
  constructor
  · unfold searchSimilar
    by_cases hc : c.docs.isEmpty = true
    · rw [if_pos hc]
      exact Or.inl rfl
    · rw [if_neg hc]
      cases modelLoaded with
      | false => exact Or.inr (Or.inl rfl)
      | true =>
        cases exc with
        | true => exact Or.inr (Or.inl rfl)
        | false =>
          cases qe with
          | none => exact Or.inr (Or.inl rfl)
          | some e => exact Or.inr (Or.inr ⟨e, rfl, rfl⟩)
  · intro hfail hc
    unfold searchSimilar
    rw [hc]
    rcases hfail with rfl | rfl | rfl
    · simp
    · cases modelLoaded <;> cases exc <;> simp
    · cases modelLoaded <;> cases qe <;> simp

/-- Witness for C10 at a concrete input: with the model unavailable on a
non-empty corpus, `search_similar` returns the lexical fallback result. -/
theorem C10_witness :
    searchSimilar lgZero nrmZero false (some [1]) false
        (buildCorpus [("alpha beta".data, none, none)]) "beta".data 5 =
      tfidfKeywordSearch lgZero (buildCorpus [("alpha beta".data, none, none)])
        "beta".data 5 :=
  (C10_total_with_fallback lgZero nrmZero false (some [1]) false
    (buildCorpus [("alpha beta".data, none, none)]) "beta".data 5).2
    (Or.inl rfl) (by decide)

end Quilt
